import Mathlib

/-
  Verification development for the catalyst training-loop orchestrator.

  Shallow embedding of:
  - src/catalyst/dl/metric_manager.py  (TimerManager, MetricManager)
  - src/catalyst/dl/experiments/runner.py  (Runner: event dispatch and the
    stage / epoch / loader / batch state machine)

  Python dicts are modelled as association lists with insert-or-update
  semantics (insertion order preserved, keys unique).  Float values are
  modelled as rationals; the float infinities used to initialise the
  best-metric tracker are modelled by the XFloat type.  Assertion failures
  are modelled with Except.
-/

set_option maxHeartbeats 1600000

/-- Association-list lookup, mirroring Python dict indexing. -/
def alookup {κ α : Type} [DecidableEq κ] (k : κ) : List (κ × α) → Option α
  | [] => none
  | p :: rest => if p.1 = k then some p.2 else alookup k rest

/-- Association-list insert-or-update, mirroring Python dict assignment:
an existing key is updated in place, a new key is appended. -/
def ainsert {κ α : Type} [DecidableEq κ] (k : κ) (v : α) : List (κ × α) → List (κ × α)
  | [] => [(k, v)]
  | p :: rest => if p.1 = k then (k, v) :: rest else p :: ainsert k v rest

/-- Association-list key removal, mirroring Python del d[k]. -/
def aerase {κ α : Type} [DecidableEq κ] (k : κ) : List (κ × α) → List (κ × α)
  | [] => []
  | p :: rest => if p.1 = k then rest else p :: aerase k rest

/-- Lookup with a default, mirroring defaultdict access. -/
def alookupD {κ α : Type} [DecidableEq κ] (k : κ) (l : List (κ × α)) (d : α) : α :=
  (alookup k l).getD d

/-- Set equality of Python dict key views (dict.keys() == dict.keys()). -/
def keysEqB (xs ys : List String) : Bool :=
  xs.all ys.contains && ys.all xs.contains

/-- Concatenation of a list of lists. -/
def joinL {α : Type} : List (List α) → List α
  | [] => []
  | l :: ls => l ++ joinL ls

/-- Python str.startswith over the underlying character lists. -/
def strStartsWith (s p : String) : Bool := p.data.isPrefixOf s.data

/-- Errors raised by assertions in the embedded code. -/
inductive MErr where
  | precondition
  | consistency
deriving DecidableEq

/-- IEEE-style extended value used for the best-main-metric initialisation
(float("+inf") / float("-inf")) with finite values as rationals. -/
inductive XFloat where
  | ninf
  | fin (q : ℚ)
  | pinf
deriving DecidableEq

/-- Strict less-than on extended floats, mirroring Python float comparison. -/
def XFloat.ltb : XFloat → XFloat → Bool
  | .ninf, .ninf => false
  | .ninf, .fin _ => true
  | .ninf, .pinf => true
  | .fin _, .ninf => false
  | .fin a, .fin b => decide (a < b)
  | .fin _, .pinf => true
  | .pinf, _ => false

/-- torchnet.meter.AverageValueMeter restricted to the fields MetricManager
reads: sample count, running sum and incrementally maintained mean. -/
structure AverageValueMeter where
  n : Nat
  sum : ℚ
  mean : ℚ
deriving DecidableEq

/-- Fresh meter, as produced by the defaultdict default factory. -/
def AverageValueMeter.empty : AverageValueMeter := ⟨0, 0, 0⟩

/-- add(value): updates sum and count, and maintains the mean incrementally:
for the first sample the mean is the sum, afterwards
mean := mean + (value - mean) / n. -/
def AverageValueMeter.add (m : AverageValueMeter) (v : ℚ) : AverageValueMeter :=
  let s := m.sum + v
  let n := m.n + 1
  if n = 1 then ⟨n, s, s⟩
  else ⟨n, s, m.mean + (v - m.mean) / (n : ℚ)⟩

/-- MetricManager from src/catalyst/dl/metric_manager.py.  Fields that the
Python constructor sets to None are modelled by the empty list (they are
re-initialised by the begin_* methods before being read in every scenario
the code supports); scalar extraction (.item()) is outside the model, so
submitted values are already rationals.  epoch_values is keyed by
Option String because end_loader uses the current-loader-name slot, which
Python holds as a nullable string. -/
structure MetricManager where
  valid_loader : String
  main_metric : String
  minimize : Bool
  meters : List (String × AverageValueMeter)
  batch_values : List (String × ℚ)
  epoch_values : List (Option String × List (String × ℚ))
  valid_values : List (String × ℚ)
  best_main_metric_value : XFloat
  is_best : Bool
  current_loader_name : Option String
deriving DecidableEq

/-- MetricManager.__init__ with the best value initialised to plus infinity
when minimizing and minus infinity when maximizing. -/
def MetricManager.init (valid_loader main_metric : String) (minimize : Bool) : MetricManager :=
  { valid_loader := valid_loader
    main_metric := main_metric
    minimize := minimize
    meters := []
    batch_values := []
    epoch_values := []
    valid_values := []
    best_main_metric_value := if minimize then .pinf else .ninf
    is_best := false
    current_loader_name := none }

/-- begin_epoch: clears the per-loader-per-epoch mapping. -/
def MetricManager.begin_epoch (m : MetricManager) : MetricManager :=
  { m with epoch_values := [] }

/-- end_epoch_train: asserts the validation loader and the main metric are
present in epoch_values, snapshots the validation values, computes is_best
with a strict comparison against the best value, and updates the best value
exactly when is_best. -/
def MetricManager.end_epoch_train (m : MetricManager) : Except MErr MetricManager :=
  match alookup (some m.valid_loader) m.epoch_values with
  | none => .error .precondition
  | some vv =>
    match alookup m.main_metric vv with
    | none => .error .precondition
    | some v =>
      let isb :=
        if m.minimize then XFloat.ltb (.fin v) m.best_main_metric_value
        else XFloat.ltb m.best_main_metric_value (.fin v)
      .ok { m with
            valid_values := vv
            is_best := isb
            best_main_metric_value :=
              if isb then .fin v else m.best_main_metric_value }

/-- begin_loader(name): records the current loader name and clears the
running accumulators. -/
def MetricManager.begin_loader (m : MetricManager) (name : String) : MetricManager :=
  { m with current_loader_name := some name, meters := [] }

/-- end_loader: writes every meter's mean into
epoch_values[current_loader][metric] (defaultdict access on the outer map)
and clears the current loader name.  With no meters the epoch_values map is
untouched. -/
def MetricManager.end_loader (m : MetricManager) : MetricManager :=
  let ev := m.meters.foldl
    (fun ev p =>
      ainsert m.current_loader_name
        (ainsert p.1 p.2.mean (alookupD m.current_loader_name ev [])) ev)
    m.epoch_values
  { m with epoch_values := ev, current_loader_name := none }

/-- begin_batch: clears the per-batch staging map. -/
def MetricManager.begin_batch (m : MetricManager) : MetricManager :=
  { m with batch_values := [] }

/-- end_batch: once the accumulators are non-empty, asserts the staged
metric-name set equals the accumulators' key set; then folds every staged
value into its running mean (defaultdict access on the meters map). -/
def MetricManager.end_batch (m : MetricManager) : Except MErr MetricManager :=
  if m.meters.length ≠ 0 ∧
      keysEqB (m.meters.map Prod.fst) (m.batch_values.map Prod.fst) = false then
    .error .consistency
  else
    .ok { m with
          meters := m.batch_values.foldl
            (fun ms p =>
              ainsert p.1 ((alookupD p.1 ms AverageValueMeter.empty).add p.2) ms)
            m.meters }

/-- add_batch_value(name, value, metrics_dict): merges the named value (the
empty name is falsy in Python and hence skipped) and the bulk mapping into
the per-batch staging map. -/
def MetricManager.add_batch_value (m : MetricManager) (name : Option String) (value : ℚ)
    (metrics_dict : List (String × ℚ)) : MetricManager :=
  let md :=
    match name with
    | some n => if n.length = 0 then metrics_dict else ainsert n value metrics_dict
    | none => metrics_dict
  { m with batch_values := md.foldl (fun bv p => ainsert p.1 p.2 bv) m.batch_values }

/-- Lifecycle events fired by the Runner. -/
inductive Ev where
  | stage_start
  | epoch_start
  | loader_start
  | batch_start
  | batch_end
  | loader_end
  | epoch_end
  | stage_end
deriving DecidableEq

/-- Errors raised by assertions in the Runner and TimerManager. -/
inductive RunError where
  | precondition
deriving DecidableEq

/-- Modelled from the spec: RunnerState (catalyst/dl/state.py is not under
src/; runner.py only constructs it and reads/writes its attributes).  Per
the spec it is the mutable record threaded through the loop: stage name,
epoch index, cumulative step counter, batch size, loader name and length,
need-backward and early-stop flags, the stage epoch budget, the
validation-loader name, and the input/output batch payloads.  obs_log is a
scratch attribute observers may write through the state reference (the
Python object is an open attribute bag).  Fields not passed to the
constructor start at zero / empty; early_stop starts False; epoch defaults
to 0 and step to unset (falsy 0) when not migrated. -/
structure RState (β : Type) where
  stage : String
  epoch : Nat
  step : Nat
  batch_size : Nat
  loader_name : String
  loader_len : Nat
  need_backward : Bool
  early_stop : Bool
  n_epochs : Nat
  valid_loader : String
  input : Option β
  output : Option β
  obs_log : List Nat
deriving DecidableEq

/-- Modelled from the spec: the Callback base class
(catalyst/dl/callbacks.py is not under src/) gives every observer a no-op
default handler for each lifecycle event, so getattr in _run_event always
finds a handler; an event a concrete observer does not override is none
here and dispatches as the identity. -/
structure Callback (β : Type) where
  handler : Ev → Option (RState β → RState β)

/-- Applies an optional handler, absent handlers being silent no-ops. -/
def applyOpt {α : Type} (f : Option (α → α)) (s : α) : α :=
  match f with
  | some g => g s
  | none => s

/-- Runner._run_event: the state's on_event_pre hook (if present), then
every callback's handler in list order on the state, then the state's
on_event_post hook (if present). -/
def runEvent {β : Type} (pre post : Ev → Option (RState β → RState β))
    (cbs : List (Callback β)) (e : Ev) (s : RState β) : RState β :=
  applyOpt (post e) (cbs.foldl (fun st c => applyOpt (c.handler e) st) (applyOpt (pre e) s))

/-- TimerManager from src/catalyst/dl/metric_manager.py, over an abstract
integer clock: open intervals (name to start time) and closed intervals
(name to elapsed time). -/
structure TimerManager where
  starts : List (String × Nat)
  elapsed : List (String × Nat)
deriving DecidableEq

/-- start(name): records the clock under name, overwriting a prior start. -/
def TimerManager.start (t : TimerManager) (name : String) (now : Nat) : TimerManager :=
  { t with starts := ainsert name now t.starts }

/-- stop(name): asserts the interval was started, records elapsed time and
removes the interval from the open set. -/
def TimerManager.stop (t : TimerManager) (name : String) (now : Nat) :
    Except RunError TimerManager :=
  match alookup name t.starts with
  | none => .error .precondition
  | some st => .ok ⟨aerase name t.starts, ainsert name (now - st) t.elapsed⟩

/-- reset(): discards all open and closed intervals. -/
def TimerManager.reset : TimerManager := ⟨[], []⟩

/-- A data loader: per-item batch size and the ordered batch sequence
(len(loader) is the number of batches). -/
structure Loader (β : Type) where
  batch_size : Nat
  batches : List β

/-- The state-construction parameters the Runner reads, fetched from the
Experiment collaborator per stage. -/
structure StateParams where
  n_epochs : Nat
  valid_loader : String

/-- The Experiment collaborator interface consumed by run_experiment:
ordered stages, and per stage the ordered loader mapping, the observer
list and the state parameters. -/
structure Experiment (β : Type) where
  stages : List String
  get_loaders : String → List (String × Loader β)
  get_callbacks : String → List (Callback β)
  get_state_params : String → StateParams

/-- Runner-level configuration: the state's optional pre/post hooks, the
check (smoke-test) flag, and the batch-to-device and predict_batch seams. -/
structure RunCfg (β : Type) where
  pre : Ev → Option (RState β → RState β)
  post : Ev → Option (RState β → RState β)
  checkRun : Bool
  b2d : β → β
  predict : β → β

/-- The bundle threaded through a stage: the RunnerState, its timer, the
abstract clock, and the recorded event trace. -/
structure RB (β : Type) where
  st : RState β
  timer : TimerManager
  clock : Nat
  trace : List Ev
deriving DecidableEq

/-- Fires one lifecycle event: dispatches it through _run_event and records
it on the trace. -/
def fire {β : Type} (cfg : RunCfg β) (cbs : List (Callback β)) (e : Ev) (b : RB β) : RB β :=
  { b with st := runEvent cfg.pre cfg.post cbs e b.st, trace := b.trace ++ [e] }

/-- Timer start on the bundle; one clock tick per wall-clock read. -/
def RB.tstart {β : Type} (b : RB β) (name : String) : RB β :=
  { b with timer := b.timer.start name b.clock, clock := b.clock + 1 }

/-- Timer stop on the bundle; an assertion failure carries the trace so
far. -/
def RB.tstop {β : Type} (b : RB β) (name : String) : Except (RunError × List Ev) (RB β) :=
  match b.timer.stop name b.clock with
  | .error e => .error (e, b.trace)
  | .ok t => .ok { b with timer := t, clock := b.clock + 1 }

/-- Runner._run_batch: advances step by batch_size, moves the batch to the
device and stores it as input, stores the prediction as output. -/
def runBatch {β : Type} (cfg : RunCfg β) (b : RB β) (batch : β) : RB β :=
  let s := b.st
  let s := { s with step := s.step + s.batch_size }
  let moved := cfg.b2d batch
  let s := { s with input := some moved, output := some (cfg.predict moved) }
  { b with st := s }

/-- One iteration of the batch loop in Runner._run_loader: move the batch
to the device, stop data_time, fire batch_start, start model_time, run the
batch, stop model_time and batch_time, fire batch_end, reset the timer. -/
def runLoaderIter {β : Type} (cfg : RunCfg β) (cbs : List (Callback β)) (batch : β)
    (b : RB β) : Except (RunError × List Ev) (RB β) :=
  let moved := cfg.b2d batch
  match b.tstop "base/data_time" with
  | .error e => .error e
  | .ok b1 =>
    let b2 := fire cfg cbs .batch_start b1
    let b3 := b2.tstart "base/model_time"
    let b4 := runBatch cfg b3 moved
    match b4.tstop "base/model_time" with
    | .error e => .error e
    | .ok b5 =>
      match b5.tstop "base/batch_time" with
      | .error e => .error e
      | .ok b6 => .ok { fire cfg cbs .batch_end b6 with timer := TimerManager.reset }

/-- The batch loop of Runner._run_loader: after each iteration, if the
check flag is set and the index reached 3 the loop breaks, otherwise
batch_time and data_time are restarted for the next iteration. -/
def runLoaderLoop {β : Type} (cfg : RunCfg β) (cbs : List (Callback β)) :
    List β → Nat → RB β → Except (RunError × List Ev) (RB β)
  | [], _, b => .ok b
  | batch :: rest, i, b =>
    match runLoaderIter cfg cbs batch b with
    | .error e => .error e
    | .ok b1 =>
      if cfg.checkRun ∧ 3 ≤ i then .ok b1
      else
        runLoaderLoop cfg cbs rest (i + 1)
          ((b1.tstart "base/batch_time").tstart "base/data_time")

/-- The step baseline in Runner._run_loader:
step = step or epoch * len(loader) * batch_size (0 models unset/falsy). -/
def stepBaseline (step epoch loaderLen batchSize : Nat) : Nat :=
  if step = 0 then epoch * loaderLen * batchSize else step

/-- Runner._run_loader: sets batch_size, initialises the step baseline,
resets the timer, starts batch_time and data_time, and runs the batch
loop. -/
def runLoader {β : Type} (cfg : RunCfg β) (cbs : List (Callback β)) (loader : Loader β)
    (b : RB β) : Except (RunError × List Ev) (RB β) :=
  let s := b.st
  let s := { s with batch_size := loader.batch_size }
  let s := { s with step := stepBaseline s.step s.epoch loader.batches.length s.batch_size }
  let b := { b with st := s, timer := TimerManager.reset }
  let b := b.tstart "base/batch_time"
  let b := b.tstart "base/data_time"
  runLoaderLoop cfg cbs loader.batches 0 b

/-- The validity check at the top of Runner._run_epoch as a boolean: a
non-inference stage must have the validation loader among the loader
names; an inference stage must have no train-prefixed loader name. -/
def epochCheckB (stage valid : String) (keys : List String) : Bool :=
  if strStartsWith stage "infer" then ! keys.any (fun x => strStartsWith x "train")
  else keys.contains valid

/-- The loader loop of Runner._run_epoch: per loader, record its name and
length and the need_backward flag on the state, fire loader_start, run the
loader, fire loader_end. -/
def runEpochLoaders {β : Type} (cfg : RunCfg β) (cbs : List (Callback β)) :
    List (String × Loader β) → RB β → Except (RunError × List Ev) (RB β)
  | [], b => .ok b
  | (name, loader) :: rest, b =>
    let s := { b.st with
               loader_name := name
               loader_len := loader.batches.length
               need_backward := strStartsWith name "train" }
    let b1 := fire cfg cbs .loader_start { b with st := s }
    match runLoader cfg cbs loader b1 with
    | .error e => .error e
    | .ok b2 => runEpochLoaders cfg cbs rest (fire cfg cbs .loader_end b2)

/-- Runner._run_epoch: asserts the stage/loader validity conditions, then
runs every loader in order. -/
def runEpoch {β : Type} (cfg : RunCfg β) (cbs : List (Callback β))
    (loaders : List (String × Loader β)) (b : RB β) :
    Except (RunError × List Ev) (RB β) :=
  if strStartsWith b.st.stage "infer" then
    if (loaders.map Prod.fst).any (fun x => strStartsWith x "train") then
      .error (.precondition, b.trace)
    else runEpochLoaders cfg cbs loaders b
  else
    if (loaders.map Prod.fst).contains b.st.valid_loader then
      runEpochLoaders cfg cbs loaders b
    else .error (.precondition, b.trace)

/-- The epoch loop of Runner._run_stage (for epoch in range(n_epochs)):
sets state.epoch, fires epoch_start, runs the epoch, fires epoch_end; when
the check flag is set and the epoch index reached 3 the loop breaks; when
early_stop is set it is cleared and the loop breaks. -/
def runStageEpochs {β : Type} (cfg : RunCfg β) (cbs : List (Callback β))
    (loaders : List (String × Loader β)) :
    Nat → Nat → RB β → Except (RunError × List Ev) (RB β)
  | _, 0, b => .ok b
  | epoch, k + 1, b =>
    let b1 := fire cfg cbs .epoch_start { b with st := { b.st with epoch := epoch } }
    match runEpoch cfg cbs loaders b1 with
    | .error e => .error e
    | .ok b2 =>
      let b3 := fire cfg cbs .epoch_end b2
      if cfg.checkRun ∧ 3 ≤ epoch then .ok b3
      else if b3.st.early_stop then
        .ok { b3 with st := { b3.st with early_stop := false } }
      else runStageEpochs cfg cbs loaders (epoch + 1) k b3

/-- Runner._prepare_state: builds the fresh RunnerState for a stage,
migrating step and epoch + 1 from the prior state when one exists.  The
defaults for the non-migrated fields are modelled from the spec (state.py
is not under src/): epoch 0, step unset (0), early_stop False. -/
def prepareState {β : Type} (stage : String) (params : StateParams)
    (prev : Option (RState β)) : RState β :=
  { stage := stage
    epoch :=
      match prev with
      | some p => p.epoch + 1
      | none => 0
    step :=
      match prev with
      | some p => p.step
      | none => 0
    batch_size := 0
    loader_name := ""
    loader_len := 0
    need_backward := false
    early_stop := false
    n_epochs := params.n_epochs
    valid_loader := params.valid_loader
    input := none
    output := none
    obs_log := [] }

/-- Runner._run_stage: fetches loaders and callbacks, prepares the state
(with a fresh timer), fires stage_start, runs the epoch loop over
range(state.n_epochs), fires stage_end. -/
def runStage {β : Type} (cfg : RunCfg β) (exp : Experiment β) (prev : Option (RState β))
    (clock : Nat) (trace : List Ev) (stage : String) :
    Except (RunError × List Ev) (RB β) :=
  let loaders := exp.get_loaders stage
  let cbs := exp.get_callbacks stage
  let s := prepareState stage (exp.get_state_params stage) prev
  let s1 := { s with stage := stage }
  let b : RB β := ⟨s1, TimerManager.reset, clock, trace⟩
  let b1 := fire cfg cbs .stage_start b
  match runStageEpochs cfg cbs loaders 0 b1.st.n_epochs b1 with
  | .error e => .error e
  | .ok b2 => .ok (fire cfg cbs .stage_end b2)

/-- The stage loop of Runner.run_experiment, threading the optional prior
state, the clock and the trace across stages. -/
def runStages {β : Type} (cfg : RunCfg β) (exp : Experiment β) :
    List String → Option (RState β) × Nat × List Ev →
    Except (RunError × List Ev) (Option (RState β) × Nat × List Ev)
  | [], acc => .ok acc
  | stage :: rest, (prev, clock, trace) =>
    match runStage cfg exp prev clock trace stage with
    | .error e => .error e
    | .ok b => runStages cfg exp rest (some b.st, b.clock, b.trace)

/-- Runner.run_experiment: runs every stage of the experiment in order,
starting with no prior state. -/
def runExperiment {β : Type} (cfg : RunCfg β) (exp : Experiment β) :
    Except (RunError × List Ev) (Option (RState β) × Nat × List Ev) :=
  runStages cfg exp exp.stages (none, 0, [])

/-- The event block contributed by one loader pass of n batches. -/
def batchEvents (n : Nat) : List Ev :=
  joinL (List.replicate n [Ev.batch_start, Ev.batch_end])

/-- The event block contributed by one full pass over the loaders. -/
def loaderTraceOf {β : Type} (loaders : List (String × Loader β)) : List Ev :=
  joinL (loaders.map (fun p => Ev.loader_start :: (batchEvents p.2.batches.length ++ [Ev.loader_end])))

/-- The event block contributed by one stage of nEpochs epochs. -/
def stageTraceOf {β : Type} (nEpochs : Nat) (loaders : List (String × Loader β)) : List Ev :=
  Ev.stage_start :: (joinL (List.replicate nEpochs (Ev.epoch_start :: (loaderTraceOf loaders ++ [Ev.epoch_end]))) ++ [Ev.stage_end])

/-- The full expected event trace of a run of the experiment. -/
def runTraceOf {β : Type} (exp : Experiment β) : List Ev :=
  joinL (exp.stages.map (fun stage =>
    stageTraceOf (exp.get_state_params stage).n_epochs (exp.get_loaders stage)))

/-- A dispatch function preserves the configuration attributes of the
state: stage, validation-loader name, epoch budget and epoch index. -/
def PreservesCfg {β : Type} (f : RState β → RState β) : Prop :=
  ∀ s, (f s).stage = s.stage ∧ (f s).valid_loader = s.valid_loader ∧
    (f s).n_epochs = s.n_epochs ∧ (f s).epoch = s.epoch

/-- A dispatch function leaves the early-stop flag unchanged. -/
def PreservesES {β : Type} (f : RState β → RState β) : Prop :=
  ∀ s, (f s).early_stop = s.early_stop

/-- Two states agree on the configuration attributes. -/
def StCfgEq {β : Type} (s s' : RState β) : Prop :=
  s'.stage = s.stage ∧ s'.valid_loader = s.valid_loader ∧
    s'.n_epochs = s.n_epochs ∧ s'.epoch = s.epoch

/-- Two states agree on the per-stage configuration attributes (the epoch
index itself is written by the epoch loop). -/
def StCfg3 {β : Type} (s s' : RState β) : Prop :=
  s'.stage = s.stage ∧ s'.valid_loader = s.valid_loader ∧ s'.n_epochs = s.n_epochs

/-- Invariant maintained by the running meter: before any sample the sum is
zero, and afterwards the mean equals sum divided by count. -/
def MeterInv (a : AverageValueMeter) : Prop :=
  (a.n = 0 ∧ a.sum = 0) ∨ (a.n ≠ 0 ∧ a.mean = a.sum / (a.n : ℚ))

/-- One batch of a loader pass feeding a single value under the given
metric name: begin_batch, add_batch_value, end_batch. -/
def passBatch (m : MetricManager) (name : String) (v : ℚ) : Except MErr MetricManager :=
  ((m.begin_batch).add_batch_value (some name) v []).end_batch

/-- The batch sequence of a loader pass feeding the given values. -/
def loaderPassBatches (name : String) : List ℚ → MetricManager → Except MErr MetricManager
  | [], m => .ok m
  | v :: vs, m =>
    match passBatch m name v with
    | .error e => .error e
    | .ok m1 => loaderPassBatches name vs m1

/-- A full loader pass: begin_loader, one batch per value, end_loader. -/
def loaderPass (m : MetricManager) (l name : String) (vs : List ℚ) :
    Except MErr MetricManager :=
  match loaderPassBatches name vs (m.begin_loader l) with
  | .error e => .error e
  | .ok m1 => .ok m1.end_loader

/-- The finalized epoch value a pass produced for the given loader and
metric name, when the pass succeeded. -/
def epochValueOf (r : Except MErr MetricManager) (l name : String) : Option ℚ :=
  match r with
  | .ok mf => alookup name (alookupD (some l) mf.epoch_values [])
  | .error _ => none

/-- One training epoch against the validation loader feeding a single
main-metric value: begin_epoch, a one-batch validation loader pass, then
end_epoch_train. -/
def validEpochPass (m : MetricManager) (v : ℚ) : Except MErr MetricManager :=
  match loaderPass m.begin_epoch m.valid_loader m.main_metric [v] with
  | .error e => .error e
  | .ok m1 => m1.end_epoch_train

/-- Extracts the manager from a successful result (dummy on error). -/
def mmGet (r : Except MErr MetricManager) : MetricManager :=
  match r with
  | .ok m => m
  | .error _ => MetricManager.init "" "" true

/-- Success test for a runner result. -/
def isOkR {β : Type} (r : Except (RunError × List Ev) (Option (RState β) × Nat × List Ev)) : Bool :=
  match r with
  | .ok _ => true
  | .error _ => false

/-- A minimizing manager with validation loader valid and main metric
loss, as in the spec scenarios. -/
def mmT : MetricManager := MetricManager.init "valid" "loss" true

/-- The manager state after a first batch reporting only loss. -/
def c6afterBatch1 : MetricManager :=
  mmGet (passBatch (mmT.begin_loader "train") "loss" 1)

/-- The manager state with a second batch staged reporting loss and acc. -/
def c6staged : MetricManager :=
  ((c6afterBatch1.begin_batch).add_batch_value (some "loss") 2 []).add_batch_value
    (some "acc") 3 []

/-- An observer handler that appends a tag to the observer log. -/
def logAppend {β : Type} (i : Nat) (s : RState β) : RState β :=
  { s with obs_log := s.obs_log ++ [i] }

/-- An observer that logs the tag i on every event. -/
def loggerCb {β : Type} (i : Nat) : Callback β :=
  ⟨fun _ => some (logAppend i)⟩

/-- A state hook present for every event, logging the tag i. -/
def loggerHook {β : Type} (i : Nat) : Ev → Option (RState β → RState β) :=
  fun _ => some (logAppend i)

/-- An observer overriding no handler at all. -/
def noopCb {β : Type} : Callback β := ⟨fun _ => none⟩

/-- Runner configuration with no state hooks, check flag unset and
identity device/predict seams. -/
def cfgW : RunCfg Unit :=
  { pre := fun _ => none
    post := fun _ => none
    checkRun := false
    b2d := id
    predict := id }

/-- A two-batch loader. -/
def ldW : Loader Unit := { batch_size := 4, batches := [(), ()] }

/-- A one-stage experiment: 2 epochs over loaders train and valid of two
batches each, no observers. -/
def expW : Experiment Unit :=
  { stages := ["stageA"]
    get_loaders := fun _ => [("train", ldW), ("valid", ldW)]
    get_callbacks := fun _ => []
    get_state_params := fun _ => { n_epochs := 2, valid_loader := "valid" } }

/-- A non-inference experiment whose loaders train and test do not include
the configured validation loader valid, with an epoch budget of zero. -/
def expZ : Experiment Unit :=
  { stages := ["stageA"]
    get_loaders := fun _ => [("train", ldW), ("test", ldW)]
    get_callbacks := fun _ => []
    get_state_params := fun _ => { n_epochs := 0, valid_loader := "valid" } }

/-- The same misconfigured experiment with an epoch budget of one. -/
def expM : Experiment Unit :=
  { stages := ["stageA"]
    get_loaders := fun _ => [("train", ldW), ("test", ldW)]
    get_callbacks := fun _ => []
    get_state_params := fun _ => { n_epochs := 1, valid_loader := "valid" } }

/-- An observer that sets early_stop during epoch_end of epoch 0. -/
def esCb {β : Type} : Callback β :=
  ⟨fun e =>
    if e = Ev.epoch_end then
      some (fun s => if s.epoch = 0 then { s with early_stop := true } else s)
    else none⟩

/-- A one-stage experiment budgeted for 5 epochs whose only observer sets
early_stop during epoch_end of epoch 0. -/
def expES : Experiment Unit :=
  { stages := ["stageA"]
    get_loaders := fun _ => [("train", ldW), ("valid", ldW)]
    get_callbacks := fun _ => [esCb]
    get_state_params := fun _ => { n_epochs := 5, valid_loader := "valid" } }
/-- The state transformation of one successful batch-loop iteration: the
batch_start dispatch, the _run_batch update (step advance, device move,
prediction), then the batch_end dispatch. -/
def iterSt {β : Type} (cfg : RunCfg β) (cbs : List (Callback β)) (batch : β)
    (s : RState β) : RState β :=
  let s1 := runEvent cfg.pre cfg.post cbs Ev.batch_start s
  let moved := cfg.b2d (cfg.b2d batch)
  let s2 := { s1 with step := s1.step + s1.batch_size, input := some moved,
                      output := some (cfg.predict moved) }
  runEvent cfg.pre cfg.post cbs Ev.batch_end s2

/-- A sample state for exercising the event dispatcher. -/
def sW : RState Unit := prepareState "stageA" ⟨1, "valid"⟩ none

theorem alookup_ainsert {κ α : Type} [DecidableEq κ] (k k' : κ) (v : α) (l : List (κ × α)) :
    alookup k (ainsert k' v l) = if k' = k then some v else alookup k l := by
  induction l with
  | nil => by_cases h : k' = k <;> simp [ainsert, alookup, h]
  | cons p rest ih =>
    by_cases h1 : p.1 = k'
    · by_cases h2 : k' = k
      · simp [ainsert, alookup, h1, h2]
      · have h3 : ¬ p.1 = k := by rw [h1]; exact h2
        simp [ainsert, alookup, h1, h2, h3]
    · by_cases h2 : p.1 = k
      · have h3 : ¬ k' = k := by
          intro h4
          exact h1 (by rw [h2, h4])
        have h4 : ¬ k = k' := fun hh => h3 hh.symm
        simp [ainsert, alookup, h1, h2, h3, h4]
      · simp [ainsert, alookup, h1, h2, ih]

theorem alookup_aerase_ne {κ α : Type} [DecidableEq κ] (k k' : κ) (l : List (κ × α))
    (h : k ≠ k') : alookup k (aerase k' l) = alookup k l := by
  induction l with
  | nil => simp [aerase]
  | cons p rest ih =>
    by_cases h1 : p.1 = k'
    · have h2 : ¬ p.1 = k := by
        rw [h1]
        exact fun hh => h hh.symm
      have h3 : ¬ k' = k := fun hh => h hh.symm
      simp [aerase, alookup, h1, h2, h3]
    · by_cases h2 : p.1 = k <;> simp [aerase, alookup, h, h1, h2, ih]


theorem meter_add_inv (a : AverageValueMeter) (v : ℚ) (h : MeterInv a) :
    MeterInv (a.add v) := by
  rcases h with ⟨h0, hs⟩ | ⟨h0, hm⟩
  · right
    unfold AverageValueMeter.add
    simp [h0, hs]
  · right
    unfold AverageValueMeter.add
    have h1 : ¬ (a.n + 1 = 1) := by omega
    simp only [h1, if_false]
    refine ⟨by omega, ?_⟩
    rw [hm]
    have hq : ((a.n : ℚ)) ≠ 0 := by
      exact_mod_cast h0
    have hq1 : ((a.n : ℚ) + 1) ≠ 0 := by positivity
    push_cast
    field_simp
    ring

theorem meter_add_stats (a : AverageValueMeter) (v : ℚ) :
    (a.add v).n = a.n + 1 ∧ (a.add v).sum = a.sum + v := by
  unfold AverageValueMeter.add
  by_cases h : a.n + 1 = 1 <;> simp [h]

theorem meter_fold_stats (vs : List ℚ) (a : AverageValueMeter) :
    (vs.foldl AverageValueMeter.add a).n = a.n + vs.length ∧
    (vs.foldl AverageValueMeter.add a).sum = a.sum + vs.sum ∧
    (MeterInv a → MeterInv (vs.foldl AverageValueMeter.add a)) := by
  induction vs generalizing a with
  | nil => simp
  | cons v vs ih =>
    obtain ⟨hn, hs⟩ := meter_add_stats a v
    obtain ⟨ihn, ihs, ihi⟩ := ih (a.add v)
    refine ⟨?_, ?_, ?_⟩
    · simp only [List.foldl_cons, ihn, hn, List.length_cons]
      omega
    · simp only [List.foldl_cons, ihs, hs, List.sum_cons]
      ring
    · intro hi
      simp only [List.foldl_cons]
      exact ihi (meter_add_inv a v hi)

theorem meter_mean_of_fold (vs : List ℚ) (h : vs ≠ []) :
    (vs.foldl AverageValueMeter.add AverageValueMeter.empty).mean
      = vs.sum / (vs.length : ℚ) := by
  obtain ⟨hn, hs, hi⟩ := meter_fold_stats vs AverageValueMeter.empty
  have hinv : MeterInv (vs.foldl AverageValueMeter.add AverageValueMeter.empty) := by
    apply hi
    left
    exact ⟨rfl, rfl⟩
  have hlen : vs.length ≠ 0 := fun hh => h (List.length_eq_zero.mp hh)
  rcases hinv with ⟨h0, _⟩ | ⟨_, hm⟩
  · rw [hn] at h0
    have he : AverageValueMeter.empty.n = 0 := rfl
    omega
  · rw [hm, hn, hs]
    simp [AverageValueMeter.empty]

/-- C2: end_epoch_train fails with the precondition error exactly when the
configured validation loader or the main-metric key is absent from the
just-closed epoch_values; on success it snapshots the validation values,
sets is_best by a strict comparison against the best value (initialised to
plus infinity when minimizing, minus infinity when maximizing) and updates
the best value exactly when is_best; feeding validation main-metric values
1, 1/2 and 4/5 across three epochs under minimize yields is_best true,
true, false and a final best of 1/2. -/
theorem end_epoch_train_spec (m : MetricManager) :
    (m.end_epoch_train = .error .precondition ↔
      (alookup (some m.valid_loader) m.epoch_values).bind (alookup m.main_metric) = none) ∧
    (∀ vv v, alookup (some m.valid_loader) m.epoch_values = some vv →
      alookup m.main_metric vv = some v →
      m.end_epoch_train = .ok { m with
        valid_values := vv
        is_best :=
          if m.minimize then XFloat.ltb (.fin v) m.best_main_metric_value
          else XFloat.ltb m.best_main_metric_value (.fin v)
        best_main_metric_value :=
          if (if m.minimize then XFloat.ltb (.fin v) m.best_main_metric_value
              else XFloat.ltb m.best_main_metric_value (.fin v)) then .fin v
          else m.best_main_metric_value }) ∧
    (∃ m1 m2 m3,
      validEpochPass mmT 1 = .ok m1 ∧ m1.is_best = true ∧
        m1.best_main_metric_value = XFloat.fin 1 ∧
      validEpochPass m1 (1/2) = .ok m2 ∧ m2.is_best = true ∧
        m2.best_main_metric_value = XFloat.fin (1/2) ∧
      validEpochPass m2 (4/5) = .ok m3 ∧ m3.is_best = false ∧
        m3.best_main_metric_value = XFloat.fin (1/2)) := by
  refine ⟨?_, ?_, ?_⟩
  · unfold MetricManager.end_epoch_train
    rcases hv : alookup (some m.valid_loader) m.epoch_values with _ | vv
    · simp
    · rcases hm : alookup m.main_metric vv with _ | v
      · simp [hm]
      · simp [hm]
  · intro vv v hvv hm
    unfold MetricManager.end_epoch_train
    simp [hvv, hm]
  · refine ⟨_, _, _, rfl, ?_, ?_, rfl, ?_, ?_, rfl, ?_, ?_⟩ <;>
      norm_num [validEpochPass, loaderPass, loaderPassBatches, passBatch, mmT,
        MetricManager.begin_epoch, MetricManager.begin_loader, MetricManager.begin_batch,
        MetricManager.add_batch_value, MetricManager.end_batch, MetricManager.end_loader,
        MetricManager.end_epoch_train, MetricManager.init, alookup, ainsert, alookupD,
        keysEqB, XFloat.ltb, AverageValueMeter.add, AverageValueMeter.empty]

/-- Witness for C2: a concrete manager whose epoch values hold loss 3 for
the validation loader succeeds, snapshots the values, is best and updates
the best value to 3. -/
theorem end_epoch_train_spec_witness :
    ({ mmT with epoch_values := [(some "valid", [("loss", (3:ℚ))])] } : MetricManager).end_epoch_train
      = .ok { mmT with
              epoch_values := [(some "valid", [("loss", (3:ℚ))])]
              valid_values := [("loss", (3:ℚ))]
              is_best := true
              best_main_metric_value := XFloat.fin 3 } := by
  have h := (end_epoch_train_spec
    { mmT with epoch_values := [(some "valid", [("loss", (3:ℚ))])] }).2.1
    [("loss", (3:ℚ))] 3 (by norm_num [mmT, MetricManager.init, alookup])
    (by norm_num [mmT, MetricManager.init, alookup])
  rw [h]
  norm_num [mmT, MetricManager.init, XFloat.ltb]

theorem passBatch_first (m : MetricManager) (name : String) (v : ℚ)
    (hname : name.length ≠ 0) (hm : m.meters = []) :
    ∃ m', passBatch m name v
        = .ok { m with batch_values := [(name, v)],
                       meters := [(name, AverageValueMeter.empty.add v)] } ∧
      m' = { m with batch_values := [(name, v)],
                    meters := [(name, AverageValueMeter.empty.add v)] } := by
  refine ⟨_, ?_, rfl⟩
  simp [passBatch, MetricManager.begin_batch, MetricManager.add_batch_value,
    MetricManager.end_batch, ainsert, alookupD, alookup, keysEqB, hm, hname]

theorem passBatch_step (m : MetricManager) (name : String) (v : ℚ) (acc : AverageValueMeter)
    (hname : name.length ≠ 0) (hm : m.meters = [(name, acc)]) :
    passBatch m name v
      = .ok { m with batch_values := [(name, v)],
                     meters := [(name, acc.add v)] } := by
  simp [passBatch, MetricManager.begin_batch, MetricManager.add_batch_value,
    MetricManager.end_batch, ainsert, alookupD, alookup, keysEqB, hm, hname]

theorem loaderPassBatches_spec (name : String) (vs : List ℚ) (hname : name.length ≠ 0) :
    ∀ (m : MetricManager) (acc : AverageValueMeter), m.meters = [(name, acc)] →
    ∃ m1, loaderPassBatches name vs m = .ok m1 ∧
      m1.meters = [(name, vs.foldl AverageValueMeter.add acc)] ∧
      m1.epoch_values = m.epoch_values ∧
      m1.current_loader_name = m.current_loader_name := by
  induction vs with
  | nil =>
    intro m acc hm
    refine ⟨m, rfl, ?_, rfl, rfl⟩
    simpa using hm
  | cons v vs ih =>
    intro m acc hm
    have hp := passBatch_step m name v acc hname hm
    have hrec : ({ m with batch_values := [(name, v)], meters := [(name, acc.add v)] } : MetricManager).meters = [(name, acc.add v)] := rfl
    obtain ⟨m1, h1, h2, h3, h4⟩ := ih _ (acc.add v) hrec
    refine ⟨m1, ?_, ?_, h3, h4⟩
    · simp only [loaderPassBatches, hp, h1]
    · simpa using h2

theorem loaderPass_value (m : MetricManager) (l name : String) (vs : List ℚ)
    (hname : name.length ≠ 0) (hvs : vs ≠ []) :
    epochValueOf (loaderPass m l name vs) l name
      = some (vs.sum / (vs.length : ℚ)) := by
  rcases vs with _ | ⟨v, vs'⟩
  · exact absurd rfl hvs
  · obtain ⟨m', hp, hm'⟩ := passBatch_first (m.begin_loader l) name v hname rfl
    have hrec : ({ m.begin_loader l with batch_values := [(name, v)], meters := [(name, AverageValueMeter.empty.add v)] } : MetricManager).meters = [(name, AverageValueMeter.empty.add v)] := rfl
    obtain ⟨m1, h1, h2, h3, h4⟩ := loaderPassBatches_spec name vs' hname _ (AverageValueMeter.empty.add v) hrec
    have hlpb : loaderPassBatches name (v :: vs') (m.begin_loader l) = .ok m1 := by
      simp only [loaderPassBatches, hp, h1]
    have hfold : m1.meters = [(name, (v :: vs').foldl AverageValueMeter.add AverageValueMeter.empty)] := by
      rw [h2]
      simp
    have hcur : m1.current_loader_name = some l := by
      rw [h4]
      rfl
    unfold loaderPass
    rw [hlpb]
    show alookup name (alookupD (some l) (MetricManager.end_loader m1).epoch_values [])
      = some ((v :: vs').sum / ((v :: vs').length : ℚ))
    have hev : (MetricManager.end_loader m1).epoch_values
        = ainsert (some l)
          (ainsert name ((v :: vs').foldl AverageValueMeter.add AverageValueMeter.empty).mean
            (alookupD (some l) m1.epoch_values []))
          m1.epoch_values := by
      simp only [MetricManager.end_loader, hfold, hcur, List.foldl_cons, List.foldl_nil]
    rw [hev, meter_mean_of_fold (v :: vs') (by simp)]
    simp [alookupD, alookup_ainsert]

/-- C3: a loader pass of begin_loader, then per value begin_batch,
add_batch_value and end_batch, then end_loader, sets
epoch_values[loader][name] to the arithmetic mean of the fed values; the
mean is maintained incrementally by the meter (count and running mean
only) and the result is invariant under permutations of the feeding
order. -/
theorem loaderPass_mean (m : MetricManager) (l name : String) (vs : List ℚ)
    (hname : name ≠ "") (hvs : vs ≠ []) :
    epochValueOf (loaderPass m l name vs) l name
      = some (vs.sum / (vs.length : ℚ)) ∧
    ∀ vs', vs.Perm vs' →
      epochValueOf (loaderPass m l name vs') l name
        = epochValueOf (loaderPass m l name vs) l name := by
  have hlen : name.length ≠ 0 := by
    intro hh
    apply hname
    cases name with
    | mk data =>
      simp [String.length] at hh
      simp [hh]
  have h1 := loaderPass_value m l name vs hlen hvs
  refine ⟨h1, ?_⟩
  intro vs' hperm
  have hvs' : vs' ≠ [] := by
    intro hh
    apply hvs
    have hl := hperm.length_eq
    rw [hh] at hl
    exact List.length_eq_zero.mp hl
  have h2 := loaderPass_value m l name vs' hlen hvs'
  rw [h1, h2, hperm.sum_eq, hperm.length_eq]

/-- Witness for C3: feeding 1, 2, 3 yields mean 2, and feeding the
permutation 2, 1, 3 yields the same epoch value. -/
theorem loaderPass_mean_witness :
    epochValueOf (loaderPass mmT "train" "m" [1, 2, 3]) "train" "m" = some 2 ∧
    epochValueOf (loaderPass mmT "train" "m" [2, 1, 3]) "train" "m"
      = epochValueOf (loaderPass mmT "train" "m" [1, 2, 3]) "train" "m" := by
  obtain ⟨h1, h2⟩ := loaderPass_mean mmT "train" "m" [1, 2, 3]
    (by decide) (by simp)
  refine ⟨?_, h2 [2, 1, 3] (List.Perm.swap 2 1 [3])⟩
  rw [h1]
  norm_num

theorem fold_meters_notmem (bvs : List (String × ℚ)) (ms : List (String × AverageValueMeter))
    (name : String) (h : name ∉ bvs.map Prod.fst) :
    alookup name (bvs.foldl
        (fun ms p => ainsert p.1 ((alookupD p.1 ms AverageValueMeter.empty).add p.2) ms) ms)
      = alookup name ms := by
  induction bvs generalizing ms with
  | nil => rfl
  | cons p rest ih =>
    simp only [List.foldl_cons]
    have hp : ¬ p.1 = name := by
      intro hh
      exact h (by simp [hh])
    rw [ih _ (by intro hh; exact h (by simp [hh]))]
    rw [alookup_ainsert]
    simp [hp]

theorem fold_meters_mem (bvs : List (String × ℚ)) :
    ∀ (ms : List (String × AverageValueMeter)), (bvs.map Prod.fst).Nodup →
    ∀ name v, alookup name bvs = some v →
    alookup name (bvs.foldl
        (fun ms p => ainsert p.1 ((alookupD p.1 ms AverageValueMeter.empty).add p.2) ms) ms)
      = some ((alookupD name ms AverageValueMeter.empty).add v) := by
  induction bvs with
  | nil =>
    intro ms hnd name v hv
    cases hv
  | cons p rest ih =>
    intro ms hnd name v hv
    simp only [List.foldl_cons]
    by_cases hp : p.1 = name
    · have hv2 : p.2 = v := by
        simpa [alookup, hp] using hv
      have hnm : name ∉ rest.map Prod.fst := by
        rw [← hp]
        exact (List.nodup_cons.mp (by simpa using hnd)).1
      rw [fold_meters_notmem rest _ name hnm, alookup_ainsert]
      simp [hp, hv2]
    · have hv2 : alookup name rest = some v := by
        simpa [alookup, hp] using hv
      have hnd2 : (rest.map Prod.fst).Nodup := (List.nodup_cons.mp (by simpa using hnd)).2
      rw [ih _ hnd2 name v hv2]
      have hD : alookupD name (ainsert p.1 ((alookupD p.1 ms AverageValueMeter.empty).add p.2) ms) AverageValueMeter.empty
          = alookupD name ms AverageValueMeter.empty := by
        unfold alookupD
        rw [alookup_ainsert]
        simp [hp]
      rw [hD]

/-- C6: once the running accumulators are non-empty, end_batch fails with
the consistency error exactly when the staged metric-name set differs from
the accumulators' key set; the first end_batch of a pass never raises it;
and on success every staged value is folded into its running mean. -/
theorem end_batch_spec (m : MetricManager) :
    (m.meters ≠ [] →
      (m.end_batch = .error .consistency ↔
        keysEqB (m.meters.map Prod.fst) (m.batch_values.map Prod.fst) = false)) ∧
    (m.meters = [] → ∃ m', m.end_batch = .ok m') ∧
    (∀ m', m.end_batch = .ok m' → (m.batch_values.map Prod.fst).Nodup →
      ∀ name v, alookup name m.batch_values = some v →
        alookup name m'.meters
          = some ((alookupD name m.meters AverageValueMeter.empty).add v)) := by
  refine ⟨?_, ?_, ?_⟩
  · intro hne
    have hlen : m.meters.length ≠ 0 := by
      intro hh
      exact hne (List.length_eq_zero.mp hh)
    unfold MetricManager.end_batch
    by_cases hk : keysEqB (m.meters.map Prod.fst) (m.batch_values.map Prod.fst) = false
    · rw [if_pos ⟨hlen, hk⟩]
      simp [hk]
    · rw [if_neg (by intro hc; exact hk hc.2)]
      simp [hk]
  · intro hm
    unfold MetricManager.end_batch
    rw [if_neg (by intro hc; exact hc.1 (by rw [hm]; rfl))]
    exact ⟨_, rfl⟩
  · intro m' hok hnd name v hv
    unfold MetricManager.end_batch at hok
    by_cases hc : (m.meters.length ≠ 0 ∧
        keysEqB (m.meters.map Prod.fst) (m.batch_values.map Prod.fst) = false)
    · rw [if_pos hc] at hok
      cases hok
    · rw [if_neg hc] at hok
      injection hok with hh
      rw [← hh]
      exact fold_meters_mem m.batch_values m.meters hnd name v hv

/-- Witness for C6: a first batch reporting only loss succeeds, and a
second batch staging loss and acc fails its end_batch with the
consistency error. -/
theorem end_batch_spec_witness :
    c6staged.end_batch = .error .consistency ∧
    (∃ m', (mmT.begin_loader "train").begin_batch.end_batch = .ok m') := by
  constructor
  · exact ((end_batch_spec c6staged).1 (by decide)).mpr (by decide)
  · exact (end_batch_spec ((mmT.begin_loader "train").begin_batch)).2.1 rfl

/-- C10: a begin_loader immediately followed by end_loader with no value
folded in between leaves epoch_values without any entry for the loader,
and a subsequent end_epoch_train fails with the precondition error when
that loader is the configured validation loader. -/
theorem empty_loader_pass_spec (m : MetricManager) (l : String)
    (h : alookup (some l) m.epoch_values = none) :
    ((m.begin_loader l).end_loader).epoch_values = m.epoch_values ∧
    alookup (some l) ((m.begin_loader l).end_loader).epoch_values = none ∧
    (l = m.valid_loader →
      ((m.begin_loader l).end_loader).end_epoch_train = .error .precondition) := by
  have h1 : ((m.begin_loader l).end_loader).epoch_values = m.epoch_values := rfl
  refine ⟨h1, by rw [h1]; exact h, ?_⟩
  intro hl
  unfold MetricManager.end_epoch_train
  have h2 : ((m.begin_loader l).end_loader).valid_loader = m.valid_loader := rfl
  rw [h2, h1, ← hl, h]

/-- Witness for C10: a fresh minimizing manager whose validation loader
yields no batches fails end_epoch_train after the empty loader pass. -/
theorem empty_loader_pass_spec_witness :
    ((mmT.begin_loader "valid").end_loader).end_epoch_train = .error .precondition :=
  (empty_loader_pass_spec mmT "valid" rfl).2.2 rfl

theorem stringNe1 : "base/batch_time" ≠ "base/data_time" := by decide

theorem stringNe2 : "base/batch_time" ≠ "base/model_time" := by decide

theorem stringNe3 : "base/model_time" ≠ "base/data_time" := by decide

theorem runLoaderIter_ok {β : Type} (cfg : RunCfg β) (cbs : List (Callback β)) (batch : β)
    (b : RB β) (x y : Nat)
    (hd : alookup "base/data_time" b.timer.starts = some x)
    (hb : alookup "base/batch_time" b.timer.starts = some y)
    (hc1 : PreservesCfg (runEvent cfg.pre cfg.post cbs Ev.batch_start))
    (hc2 : PreservesCfg (runEvent cfg.pre cfg.post cbs Ev.batch_end))
    (he1 : PreservesES (runEvent cfg.pre cfg.post cbs Ev.batch_start))
    (he2 : PreservesES (runEvent cfg.pre cfg.post cbs Ev.batch_end)) :
    ∃ b', runLoaderIter cfg cbs batch b = .ok b' ∧
      b'.trace = b.trace ++ [Ev.batch_start, Ev.batch_end] ∧
      b'.timer = TimerManager.reset ∧
      StCfgEq b.st b'.st ∧ b'.st.early_stop = b.st.early_stop := by
  have hc1s : ∀ s, (runEvent cfg.pre cfg.post cbs Ev.batch_start s).stage = s.stage :=
    fun s => (hc1 s).1
  have hc1v : ∀ s, (runEvent cfg.pre cfg.post cbs Ev.batch_start s).valid_loader = s.valid_loader :=
    fun s => (hc1 s).2.1
  have hc1n : ∀ s, (runEvent cfg.pre cfg.post cbs Ev.batch_start s).n_epochs = s.n_epochs :=
    fun s => (hc1 s).2.2.1
  have hc1e : ∀ s, (runEvent cfg.pre cfg.post cbs Ev.batch_start s).epoch = s.epoch :=
    fun s => (hc1 s).2.2.2
  have hc2s : ∀ s, (runEvent cfg.pre cfg.post cbs Ev.batch_end s).stage = s.stage :=
    fun s => (hc2 s).1
  have hc2v : ∀ s, (runEvent cfg.pre cfg.post cbs Ev.batch_end s).valid_loader = s.valid_loader :=
    fun s => (hc2 s).2.1
  have hc2n : ∀ s, (runEvent cfg.pre cfg.post cbs Ev.batch_end s).n_epochs = s.n_epochs :=
    fun s => (hc2 s).2.2.1
  have hc2e : ∀ s, (runEvent cfg.pre cfg.post cbs Ev.batch_end s).epoch = s.epoch :=
    fun s => (hc2 s).2.2.2
  have he1e : ∀ s, (runEvent cfg.pre cfg.post cbs Ev.batch_start s).early_stop = s.early_stop := he1
  have he2e : ∀ s, (runEvent cfg.pre cfg.post cbs Ev.batch_end s).early_stop = s.early_stop := he2
  have hiter : runLoaderIter cfg cbs batch b
      = Except.ok { st := iterSt cfg cbs batch b.st, timer := TimerManager.reset,
                    clock := b.clock + 4,
                    trace := b.trace ++ [Ev.batch_start, Ev.batch_end] } := by
    simp [runLoaderIter, iterSt, RB.tstop, TimerManager.stop, hd, RB.tstart,
      TimerManager.start, fire, runBatch, alookup_ainsert, alookup_aerase_ne,
      stringNe1, stringNe2, stringNe3, hb]
  refine ⟨_, hiter, rfl, rfl, ?_, ?_⟩
  · refine ⟨?_, ?_, ?_, ?_⟩ <;>
      simp only [iterSt, hc2s, hc2v, hc2n, hc2e, hc1s, hc1v, hc1n, hc1e]
  · simp only [iterSt, he2e, he1e]

theorem stCfgEq_refl {β : Type} (s : RState β) : StCfgEq s s := ⟨rfl, rfl, rfl, rfl⟩

theorem stCfgEq_trans {β : Type} {a b c : RState β} (h1 : StCfgEq a b) (h2 : StCfgEq b c) :
    StCfgEq a c :=
  ⟨h2.1.trans h1.1, h2.2.1.trans h1.2.1, h2.2.2.1.trans h1.2.2.1, h2.2.2.2.trans h1.2.2.2⟩

theorem stCfg3_trans {β : Type} {a b c : RState β} (h1 : StCfg3 a b) (h2 : StCfg3 b c) :
    StCfg3 a c :=
  ⟨h2.1.trans h1.1, h2.2.1.trans h1.2.1, h2.2.2.trans h1.2.2⟩

theorem stCfgEq_to3 {β : Type} {a b : RState β} (h : StCfgEq a b) : StCfg3 a b :=
  ⟨h.1, h.2.1, h.2.2.1⟩

theorem batchEvents_succ (n : Nat) :
    batchEvents (n + 1) = [Ev.batch_start, Ev.batch_end] ++ batchEvents n := by
  simp [batchEvents, List.replicate, joinL]

theorem runLoaderLoop_ok {β : Type} (cfg : RunCfg β) (cbs : List (Callback β))
    (hchk : cfg.checkRun = false)
    (hc1 : PreservesCfg (runEvent cfg.pre cfg.post cbs Ev.batch_start))
    (hc2 : PreservesCfg (runEvent cfg.pre cfg.post cbs Ev.batch_end))
    (he1 : PreservesES (runEvent cfg.pre cfg.post cbs Ev.batch_start))
    (he2 : PreservesES (runEvent cfg.pre cfg.post cbs Ev.batch_end)) :
    ∀ (batches : List β) (i : Nat) (b : RB β) (x y : Nat),
      alookup "base/data_time" b.timer.starts = some x →
      alookup "base/batch_time" b.timer.starts = some y →
      ∃ b', runLoaderLoop cfg cbs batches i b = .ok b' ∧
        b'.trace = b.trace ++ batchEvents batches.length ∧
        StCfgEq b.st b'.st ∧ b'.st.early_stop = b.st.early_stop := by
  intro batches
  induction batches with
  | nil =>
    intro i b x y hd hb
    exact ⟨b, rfl, by simp [batchEvents, joinL], stCfgEq_refl b.st, rfl⟩
  | cons batch rest ih =>
    intro i b x y hd hb
    obtain ⟨b1, h1, htr, htm, hcfg, hes⟩ :=
      runLoaderIter_ok cfg cbs batch b x y hd hb hc1 hc2 he1 he2
    have hcond : ¬ (cfg.checkRun = true ∧ 3 ≤ i) := by
      intro hc
      rw [hchk] at hc
      cases hc.1
    have hd2 : alookup "base/data_time"
        ((b1.tstart "base/batch_time").tstart "base/data_time").timer.starts
          = some (b1.clock + 1) := by
      simp [RB.tstart, TimerManager.start, htm, TimerManager.reset, ainsert, alookup,
        stringNe1]
    have hb2 : alookup "base/batch_time"
        ((b1.tstart "base/batch_time").tstart "base/data_time").timer.starts
          = some b1.clock := by
      simp [RB.tstart, TimerManager.start, htm, TimerManager.reset, ainsert, alookup,
        stringNe1]
    obtain ⟨b', h2, htr2, hcfg2, hes2⟩ :=
      ih (i + 1) ((b1.tstart "base/batch_time").tstart "base/data_time") _ _ hd2 hb2
    refine ⟨b', ?_, ?_, ?_, ?_⟩
    · simp only [runLoaderLoop, h1, if_neg hcond]
      exact h2
    · rw [htr2]
      have hbt : ((b1.tstart "base/batch_time").tstart "base/data_time").trace = b1.trace := rfl
      rw [hbt, htr, List.length_cons, batchEvents_succ, List.append_assoc]
    · have hbs : ((b1.tstart "base/batch_time").tstart "base/data_time").st = b1.st := rfl
      rw [hbs] at hcfg2
      exact stCfgEq_trans hcfg hcfg2
    · have hbs : ((b1.tstart "base/batch_time").tstart "base/data_time").st = b1.st := rfl
      rw [hbs] at hes2
      rw [hes2, hes]

theorem runLoader_ok {β : Type} (cfg : RunCfg β) (cbs : List (Callback β))
    (hchk : cfg.checkRun = false)
    (hc1 : PreservesCfg (runEvent cfg.pre cfg.post cbs Ev.batch_start))
    (hc2 : PreservesCfg (runEvent cfg.pre cfg.post cbs Ev.batch_end))
    (he1 : PreservesES (runEvent cfg.pre cfg.post cbs Ev.batch_start))
    (he2 : PreservesES (runEvent cfg.pre cfg.post cbs Ev.batch_end))
    (loader : Loader β) (b : RB β) :
    ∃ b', runLoader cfg cbs loader b = .ok b' ∧
      b'.trace = b.trace ++ batchEvents loader.batches.length ∧
      StCfgEq b.st b'.st ∧ b'.st.early_stop = b.st.early_stop := by
  have happ : runLoader cfg cbs loader b = runLoaderLoop cfg cbs loader.batches 0
      ⟨{ b.st with batch_size := loader.batch_size, step := stepBaseline b.st.step b.st.epoch loader.batches.length loader.batch_size },
        ⟨[("base/batch_time", b.clock), ("base/data_time", b.clock + 1)], []⟩,
        b.clock + 2, b.trace⟩ := by
    simp [runLoader, RB.tstart, TimerManager.start, TimerManager.reset, ainsert, stringNe1]
  obtain ⟨b', h2, htr2, hcfg2, hes2⟩ := runLoaderLoop_ok cfg cbs hchk hc1 hc2 he1 he2
    loader.batches 0
    ⟨{ b.st with batch_size := loader.batch_size, step := stepBaseline b.st.step b.st.epoch loader.batches.length loader.batch_size },
      ⟨[("base/batch_time", b.clock), ("base/data_time", b.clock + 1)], []⟩,
      b.clock + 2, b.trace⟩
    (b.clock + 1) b.clock
    (by simp [alookup, stringNe1, Ne.symm stringNe1]) (by simp [alookup])
  refine ⟨b', ?_, ?_, ?_, ?_⟩
  · rw [happ]
    exact h2
  · exact htr2
  · exact stCfgEq_trans ⟨rfl, rfl, rfl, rfl⟩ hcfg2
  · exact hes2

theorem loaderTraceOf_cons {β : Type} (p : String × Loader β) (rest : List (String × Loader β)) :
    loaderTraceOf (p :: rest)
      = (Ev.loader_start :: (batchEvents p.2.batches.length ++ [Ev.loader_end]))
        ++ loaderTraceOf rest := rfl

theorem runEpochLoaders_ok {β : Type} (cfg : RunCfg β) (cbs : List (Callback β))
    (hchk : cfg.checkRun = false)
    (hc : ∀ e, PreservesCfg (runEvent cfg.pre cfg.post cbs e))
    (heLS : PreservesES (runEvent cfg.pre cfg.post cbs Ev.loader_start))
    (heLE : PreservesES (runEvent cfg.pre cfg.post cbs Ev.loader_end))
    (heBS : PreservesES (runEvent cfg.pre cfg.post cbs Ev.batch_start))
    (heBE : PreservesES (runEvent cfg.pre cfg.post cbs Ev.batch_end)) :
    ∀ (loaders : List (String × Loader β)) (b : RB β),
      ∃ b', runEpochLoaders cfg cbs loaders b = .ok b' ∧
        b'.trace = b.trace ++ loaderTraceOf loaders ∧
        StCfgEq b.st b'.st ∧ b'.st.early_stop = b.st.early_stop := by
  intro loaders
  induction loaders with
  | nil =>
    intro b
    exact ⟨b, rfl, by simp [loaderTraceOf, joinL], stCfgEq_refl b.st, rfl⟩
  | cons p rest ih =>
    intro b
    obtain ⟨name, loader⟩ := p
    obtain ⟨b2, hL, htrL, hcfgL, hesL⟩ := runLoader_ok cfg cbs hchk (hc Ev.batch_start)
      (hc Ev.batch_end) heBS heBE loader
      (fire cfg cbs Ev.loader_start ⟨{ b.st with loader_name := name, loader_len := loader.batches.length, need_backward := strStartsWith name "train" }, b.timer, b.clock, b.trace⟩)
    obtain ⟨b', hR, htrR, hcfgR, hesR⟩ := ih (fire cfg cbs Ev.loader_end b2)
    refine ⟨b', ?_, ?_, ?_, ?_⟩
    · simp only [runEpochLoaders, hL]
      exact hR
    · rw [htrR]
      have h3 : (fire cfg cbs Ev.loader_end b2).trace = b2.trace ++ [Ev.loader_end] := rfl
      rw [h3, htrL]
      have h4 : (fire cfg cbs Ev.loader_start ⟨{ b.st with loader_name := name, loader_len := loader.batches.length, need_backward := strStartsWith name "train" }, b.timer, b.clock, b.trace⟩).trace = b.trace ++ [Ev.loader_start] := rfl
      rw [h4, loaderTraceOf_cons]
      simp
    · have h5 : StCfgEq b.st (fire cfg cbs Ev.loader_start ⟨{ b.st with loader_name := name, loader_len := loader.batches.length, need_backward := strStartsWith name "train" }, b.timer, b.clock, b.trace⟩).st := by
        obtain ⟨ha, hb1, hc1, hd1⟩ := hc Ev.loader_start { b.st with loader_name := name, loader_len := loader.batches.length, need_backward := strStartsWith name "train" }
        exact ⟨ha, hb1, hc1, hd1⟩
      have h6 : StCfgEq b2.st (fire cfg cbs Ev.loader_end b2).st := by
        obtain ⟨ha, hb1, hc1, hd1⟩ := hc Ev.loader_end b2.st
        exact ⟨ha, hb1, hc1, hd1⟩
      exact stCfgEq_trans (stCfgEq_trans (stCfgEq_trans h5 hcfgL) h6) hcfgR
    · have h7 : (fire cfg cbs Ev.loader_end b2).st.early_stop = b2.st.early_stop := heLE b2.st
      have h8 : (fire cfg cbs Ev.loader_start ⟨{ b.st with loader_name := name, loader_len := loader.batches.length, need_backward := strStartsWith name "train" }, b.timer, b.clock, b.trace⟩).st.early_stop = b.st.early_stop := heLS _
      rw [hesR, h7, hesL, h8]

theorem runEpoch_ok {β : Type} (cfg : RunCfg β) (cbs : List (Callback β))
    (hchk : cfg.checkRun = false)
    (hc : ∀ e, PreservesCfg (runEvent cfg.pre cfg.post cbs e))
    (heLS : PreservesES (runEvent cfg.pre cfg.post cbs Ev.loader_start))
    (heLE : PreservesES (runEvent cfg.pre cfg.post cbs Ev.loader_end))
    (heBS : PreservesES (runEvent cfg.pre cfg.post cbs Ev.batch_start))
    (heBE : PreservesES (runEvent cfg.pre cfg.post cbs Ev.batch_end))
    (loaders : List (String × Loader β)) (b : RB β)
    (hcheck : epochCheckB b.st.stage b.st.valid_loader (loaders.map Prod.fst) = true) :
    ∃ b', runEpoch cfg cbs loaders b = .ok b' ∧
      b'.trace = b.trace ++ loaderTraceOf loaders ∧
      StCfgEq b.st b'.st ∧ b'.st.early_stop = b.st.early_stop := by
  obtain ⟨b', hR, htrR, hcfgR, hesR⟩ :=
    runEpochLoaders_ok cfg cbs hchk hc heLS heLE heBS heBE loaders b
  refine ⟨b', ?_, htrR, hcfgR, hesR⟩
  unfold runEpoch
  unfold epochCheckB at hcheck
  by_cases hs : strStartsWith b.st.stage "infer"
  · rw [if_pos hs] at hcheck
    rw [if_pos hs]
    have hany : (loaders.map Prod.fst).any (fun x => strStartsWith x "train") = false := by
      simpa using hcheck
    rw [hany]
    simpa using hR
  · rw [if_neg hs] at hcheck
    rw [if_neg hs, hcheck]
    simpa using hR

theorem runStageEpochs_ok {β : Type} (cfg : RunCfg β) (cbs : List (Callback β))
    (loaders : List (String × Loader β)) (hchk : cfg.checkRun = false)
    (hc : ∀ e, PreservesCfg (runEvent cfg.pre cfg.post cbs e))
    (he : ∀ e, PreservesES (runEvent cfg.pre cfg.post cbs e)) :
    ∀ (k epoch : Nat) (b : RB β), b.st.early_stop = false →
      epochCheckB b.st.stage b.st.valid_loader (loaders.map Prod.fst) = true →
      ∃ b', runStageEpochs cfg cbs loaders epoch k b = .ok b' ∧
        b'.trace = b.trace
          ++ joinL (List.replicate k
              (Ev.epoch_start :: (loaderTraceOf loaders ++ [Ev.epoch_end]))) ∧
        StCfg3 b.st b'.st ∧ b'.st.early_stop = false := by
  intro k
  induction k with
  | zero =>
    intro epoch b hes hcheck
    exact ⟨b, rfl, by simp [joinL], ⟨rfl, rfl, rfl⟩, hes⟩
  | succ k ih =>
    intro epoch b hes hcheck
    have hcfg1 : StCfgEq { b.st with epoch := epoch } (fire cfg cbs Ev.epoch_start ⟨{ b.st with epoch := epoch }, b.timer, b.clock, b.trace⟩).st := by
      obtain ⟨ha, hb1, hc1, hd1⟩ := hc Ev.epoch_start { b.st with epoch := epoch }
      exact ⟨ha, hb1, hc1, hd1⟩
    have hes1 : (fire cfg cbs Ev.epoch_start ⟨{ b.st with epoch := epoch }, b.timer, b.clock, b.trace⟩).st.early_stop = false := by
      have := he Ev.epoch_start { b.st with epoch := epoch }
      rw [show ({ b.st with epoch := epoch } : RState β).early_stop = b.st.early_stop from rfl, hes] at this
      exact this
    have hcheck1 : epochCheckB (fire cfg cbs Ev.epoch_start ⟨{ b.st with epoch := epoch }, b.timer, b.clock, b.trace⟩).st.stage (fire cfg cbs Ev.epoch_start ⟨{ b.st with epoch := epoch }, b.timer, b.clock, b.trace⟩).st.valid_loader (loaders.map Prod.fst) = true := by
      rw [hcfg1.1, hcfg1.2.1]
      exact hcheck
    obtain ⟨b2, hE, htrE, hcfgE, hesE⟩ := runEpoch_ok cfg cbs hchk hc (he Ev.loader_start)
      (he Ev.loader_end) (he Ev.batch_start) (he Ev.batch_end) loaders
      (fire cfg cbs Ev.epoch_start ⟨{ b.st with epoch := epoch }, b.timer, b.clock, b.trace⟩)
      hcheck1
    have hes2 : (fire cfg cbs Ev.epoch_end b2).st.early_stop = false := by
      have := he Ev.epoch_end b2.st
      rw [hesE, hes1] at this
      exact this
    have hcfg2 : StCfgEq b2.st (fire cfg cbs Ev.epoch_end b2).st := by
      obtain ⟨ha, hb1, hc1, hd1⟩ := hc Ev.epoch_end b2.st
      exact ⟨ha, hb1, hc1, hd1⟩
    have hcheck2 : epochCheckB (fire cfg cbs Ev.epoch_end b2).st.stage (fire cfg cbs Ev.epoch_end b2).st.valid_loader (loaders.map Prod.fst) = true := by
      rw [hcfg2.1, hcfg2.2.1, hcfgE.1, hcfgE.2.1]
      exact hcheck1
    obtain ⟨b', hR, htrR, hcfgR, hesR⟩ := ih (epoch + 1) (fire cfg cbs Ev.epoch_end b2) hes2 hcheck2
    have hcond : ¬ (cfg.checkRun = true ∧ 3 ≤ epoch) := by
      intro hcc
      rw [hchk] at hcc
      cases hcc.1
    refine ⟨b', ?_, ?_, ?_, hesR⟩
    · simp only [runStageEpochs, hE, if_neg hcond, hes2, if_false]
      exact hR
    · rw [htrR]
      have h3 : (fire cfg cbs Ev.epoch_end b2).trace = b2.trace ++ [Ev.epoch_end] := rfl
      rw [h3, htrE]
      have h4 : (fire cfg cbs Ev.epoch_start ⟨{ b.st with epoch := epoch }, b.timer, b.clock, b.trace⟩).trace = b.trace ++ [Ev.epoch_start] := rfl
      rw [h4]
      simp [List.replicate, joinL]
    · have h5 : StCfg3 b.st ({ b.st with epoch := epoch } : RState β) := ⟨rfl, rfl, rfl⟩
      exact stCfg3_trans (stCfg3_trans (stCfg3_trans (stCfg3_trans h5 (stCfgEq_to3 hcfg1)) (stCfgEq_to3 hcfgE)) (stCfgEq_to3 hcfg2)) hcfgR

theorem runStage_ok {β : Type} (cfg : RunCfg β) (exp : Experiment β) (stage : String)
    (prev : Option (RState β)) (clock : Nat) (trace : List Ev)
    (hchk : cfg.checkRun = false)
    (hc : ∀ e, PreservesCfg (runEvent cfg.pre cfg.post (exp.get_callbacks stage) e))
    (he : ∀ e, PreservesES (runEvent cfg.pre cfg.post (exp.get_callbacks stage) e))
    (hcheck : epochCheckB stage (exp.get_state_params stage).valid_loader
      ((exp.get_loaders stage).map Prod.fst) = true) :
    ∃ b', runStage cfg exp prev clock trace stage = .ok b' ∧
      b'.trace = trace
        ++ stageTraceOf (exp.get_state_params stage).n_epochs (exp.get_loaders stage) := by
  have hn : (fire cfg (exp.get_callbacks stage) Ev.stage_start ⟨{ prepareState stage (exp.get_state_params stage) prev with stage := stage }, TimerManager.reset, clock, trace⟩).st.n_epochs = (exp.get_state_params stage).n_epochs := by
    exact ((hc Ev.stage_start { prepareState stage (exp.get_state_params stage) prev with stage := stage }).2.2.1).trans rfl
  have hsg : (fire cfg (exp.get_callbacks stage) Ev.stage_start ⟨{ prepareState stage (exp.get_state_params stage) prev with stage := stage }, TimerManager.reset, clock, trace⟩).st.stage = stage := by
    exact ((hc Ev.stage_start { prepareState stage (exp.get_state_params stage) prev with stage := stage }).1).trans rfl
  have hvl : (fire cfg (exp.get_callbacks stage) Ev.stage_start ⟨{ prepareState stage (exp.get_state_params stage) prev with stage := stage }, TimerManager.reset, clock, trace⟩).st.valid_loader = (exp.get_state_params stage).valid_loader := by
    exact ((hc Ev.stage_start { prepareState stage (exp.get_state_params stage) prev with stage := stage }).2.1).trans rfl
  have hes : (fire cfg (exp.get_callbacks stage) Ev.stage_start ⟨{ prepareState stage (exp.get_state_params stage) prev with stage := stage }, TimerManager.reset, clock, trace⟩).st.early_stop = false := by
    exact (he Ev.stage_start { prepareState stage (exp.get_state_params stage) prev with stage := stage }).trans rfl
  obtain ⟨b2, hEp, htrE, hcfgE, hesE⟩ := runStageEpochs_ok cfg (exp.get_callbacks stage)
    (exp.get_loaders stage) hchk hc he
    (fire cfg (exp.get_callbacks stage) Ev.stage_start ⟨{ prepareState stage (exp.get_state_params stage) prev with stage := stage }, TimerManager.reset, clock, trace⟩).st.n_epochs 0
    (fire cfg (exp.get_callbacks stage) Ev.stage_start ⟨{ prepareState stage (exp.get_state_params stage) prev with stage := stage }, TimerManager.reset, clock, trace⟩)
    hes (by rw [hsg, hvl]; exact hcheck)
  refine ⟨fire cfg (exp.get_callbacks stage) Ev.stage_end b2, ?_, ?_⟩
  · simp only [runStage, hEp]
  · have h1 : (fire cfg (exp.get_callbacks stage) Ev.stage_end b2).trace
        = b2.trace ++ [Ev.stage_end] := rfl
    have h2 : (fire cfg (exp.get_callbacks stage) Ev.stage_start ⟨{ prepareState stage (exp.get_state_params stage) prev with stage := stage }, TimerManager.reset, clock, trace⟩).trace = trace ++ [Ev.stage_start] := rfl
    rw [h1, htrE, h2, hn]
    simp [stageTraceOf]

theorem runStages_ok {β : Type} (cfg : RunCfg β) (exp : Experiment β)
    (hchk : cfg.checkRun = false) :
    ∀ (stages : List String),
      (∀ stage ∈ stages,
        (∀ e, PreservesCfg (runEvent cfg.pre cfg.post (exp.get_callbacks stage) e)) ∧
        (∀ e, PreservesES (runEvent cfg.pre cfg.post (exp.get_callbacks stage) e)) ∧
        epochCheckB stage (exp.get_state_params stage).valid_loader
          ((exp.get_loaders stage).map Prod.fst) = true) →
      ∀ (prev : Option (RState β)) (clock : Nat) (trace : List Ev),
      ∃ res, runStages cfg exp stages (prev, clock, trace) = .ok res ∧
        res.2.2 = trace ++ joinL (stages.map (fun stage =>
          stageTraceOf (exp.get_state_params stage).n_epochs (exp.get_loaders stage))) := by
  intro stages
  induction stages with
  | nil =>
    intro h prev clock trace
    exact ⟨(prev, clock, trace), rfl, by simp [joinL]⟩
  | cons stage rest ih =>
    intro h prev clock trace
    obtain ⟨hcS, heS, hchkS⟩ := h stage (by simp)
    obtain ⟨b', hS, htrS⟩ := runStage_ok cfg exp stage prev clock trace hchk hcS heS hchkS
    obtain ⟨res, hR, htrR⟩ := ih (fun st hst => h st (by simp [hst])) (some b'.st) b'.clock b'.trace
    refine ⟨res, ?_, ?_⟩
    · simp only [runStages, hS]
      exact hR
    · rw [htrR, htrS]
      simp [joinL, List.append_assoc]

/-- C1: for a run of run_experiment with the check flag unset, in which
the state hooks and observers respect the observer contract (they do not
mutate the stage name, the validation-loader name, the epoch budget or the
epoch index, and none sets early_stop), and in which every stage passes
the loader validity check, the fired event sequence is exactly, per stage
in order: stage_start, then per epoch: epoch_start, then per loader in
order: loader_start, then per batch: batch_start immediately followed by
batch_end, then loader_end, then epoch_end, then stage_end, strictly
nested with no omission or extra events. -/
theorem run_experiment_event_order {β : Type} (cfg : RunCfg β) (exp : Experiment β)
    (hchk : cfg.checkRun = false)
    (hpres : ∀ stage ∈ exp.stages,
      (∀ e, PreservesCfg (runEvent cfg.pre cfg.post (exp.get_callbacks stage) e)) ∧
      (∀ e, PreservesES (runEvent cfg.pre cfg.post (exp.get_callbacks stage) e)))
    (hvalid : ∀ stage ∈ exp.stages,
      epochCheckB stage (exp.get_state_params stage).valid_loader
        ((exp.get_loaders stage).map Prod.fst) = true) :
    ∃ res, runExperiment cfg exp = .ok res ∧ res.2.2 = runTraceOf exp := by
  obtain ⟨res, h1, h2⟩ := runStages_ok cfg exp hchk exp.stages
    (fun st hst => ⟨(hpres st hst).1, (hpres st hst).2, hvalid st hst⟩) none 0 []
  exact ⟨res, h1, by rw [h2]; simp [runTraceOf]⟩

/-- Witness for C1: the 2-epoch, 2-loader, 2-batch experiment with no
observers runs successfully and records exactly the expected 30-event
nested sequence. -/
theorem run_experiment_event_order_witness :
    ∃ res, runExperiment cfgW expW = .ok res ∧ res.2.2 = runTraceOf expW := by
  apply run_experiment_event_order cfgW expW rfl
  · intro stage hst
    exact ⟨fun e s => ⟨rfl, rfl, rfl, rfl⟩, fun e s => rfl⟩
  · intro stage hst
    have hst2 : stage = "stageA" := by simpa [expW] using hst
    rw [hst2]
    decide

theorem runEpoch_fail {β : Type} (cfg : RunCfg β) (cbs : List (Callback β))
    (loaders : List (String × Loader β)) (b : RB β)
    (hfail : epochCheckB b.st.stage b.st.valid_loader (loaders.map Prod.fst) = false) :
    runEpoch cfg cbs loaders b = .error (.precondition, b.trace) := by
  unfold runEpoch
  unfold epochCheckB at hfail
  by_cases hs : strStartsWith b.st.stage "infer" = true
  · rw [if_pos hs] at hfail
    rw [if_pos hs]
    have hany : (loaders.map Prod.fst).any (fun x => strStartsWith x "train") = true := by
      simpa using hfail
    rw [hany]
    simp
  · have hs2 : strStartsWith b.st.stage "infer" = false := by
      simpa using hs
    rw [if_neg hs] at hfail
    rw [if_neg hs, hfail]
    simp

/-- Counterexample for C5 as stated: a non-inference stage whose loader
set (train and test) does not contain the configured validation loader
valid, given an epoch budget of zero, completes without any failure. -/
theorem missing_valid_loader_no_failure :
    isOkR (runExperiment cfgW expZ) = true := by decide

/-- C5 amended: with an epoch budget of at least one, a stage that fails
the loader validity test (a non-inference stage whose loaders lack the
configured validation loader, dually an inference stage with a
train-prefixed loader name) aborts with the precondition error inside the
first epoch: after epoch 0's epoch_start fires and before any loader
event, the check being performed at the top of _run_epoch rather than
before the epoch loop. -/
theorem runStageEpochs_fail {β : Type} (cfg : RunCfg β) (cbs : List (Callback β))
    (loaders : List (String × Loader β)) (k : Nat) (b : RB β)
    (hfail : epochCheckB b.st.stage b.st.valid_loader (loaders.map Prod.fst) = false)
    (hc : PreservesCfg (runEvent cfg.pre cfg.post cbs Ev.epoch_start)) :
    runStageEpochs cfg cbs loaders 0 (k + 1) b
      = .error (.precondition, b.trace ++ [Ev.epoch_start]) := by
  have h1 : (fire cfg cbs Ev.epoch_start { b with st := { b.st with epoch := 0 } }).st.stage
      = b.st.stage := ((hc { b.st with epoch := 0 }).1).trans rfl
  have h2 : (fire cfg cbs Ev.epoch_start { b with st := { b.st with epoch := 0 } }).st.valid_loader
      = b.st.valid_loader := ((hc { b.st with epoch := 0 }).2.1).trans rfl
  have hfail2 : epochCheckB
      (fire cfg cbs Ev.epoch_start { b with st := { b.st with epoch := 0 } }).st.stage
      (fire cfg cbs Ev.epoch_start { b with st := { b.st with epoch := 0 } }).st.valid_loader
      (loaders.map Prod.fst) = false := by
    rw [h1, h2]
    exact hfail
  simp only [runStageEpochs,
    runEpoch_fail cfg cbs loaders (fire cfg cbs Ev.epoch_start { b with st := { b.st with epoch := 0 } }) hfail2]
  rfl

/-- C5 amended: with an epoch budget of at least one, a stage that fails
the loader validity test (a non-inference stage whose loaders lack the
configured validation loader, dually an inference stage with a
train-prefixed loader name) aborts with the precondition error inside the
first epoch: after epoch 0's epoch_start fires and before any loader
event, the check being performed at the top of _run_epoch rather than
before the epoch loop. -/
theorem invalid_loaders_fail_first_epoch {β : Type} (cfg : RunCfg β) (exp : Experiment β)
    (stage : String) (prev : Option (RState β)) (clock : Nat) (trace : List Ev)
    (hne : 1 ≤ (exp.get_state_params stage).n_epochs)
    (hc : ∀ e, PreservesCfg (runEvent cfg.pre cfg.post (exp.get_callbacks stage) e))
    (hfail : epochCheckB stage (exp.get_state_params stage).valid_loader
      ((exp.get_loaders stage).map Prod.fst) = false) :
    runStage cfg exp prev clock trace stage
      = .error (.precondition, trace ++ [Ev.stage_start, Ev.epoch_start]) := by
  have hn : (fire cfg (exp.get_callbacks stage) Ev.stage_start ⟨{ prepareState stage (exp.get_state_params stage) prev with stage := stage }, TimerManager.reset, clock, trace⟩).st.n_epochs = (exp.get_state_params stage).n_epochs :=
    ((hc Ev.stage_start { prepareState stage (exp.get_state_params stage) prev with stage := stage }).2.2.1).trans rfl
  obtain ⟨k, hk⟩ : ∃ k, (exp.get_state_params stage).n_epochs = k + 1 :=
    ⟨(exp.get_state_params stage).n_epochs - 1, by omega⟩
  have hsg : (fire cfg (exp.get_callbacks stage) Ev.stage_start ⟨{ prepareState stage (exp.get_state_params stage) prev with stage := stage }, TimerManager.reset, clock, trace⟩).st.stage = stage :=
    ((hc Ev.stage_start { prepareState stage (exp.get_state_params stage) prev with stage := stage }).1).trans rfl
  have hvl : (fire cfg (exp.get_callbacks stage) Ev.stage_start ⟨{ prepareState stage (exp.get_state_params stage) prev with stage := stage }, TimerManager.reset, clock, trace⟩).st.valid_loader = (exp.get_state_params stage).valid_loader :=
    ((hc Ev.stage_start { prepareState stage (exp.get_state_params stage) prev with stage := stage }).2.1).trans rfl
  have hfailB : epochCheckB (fire cfg (exp.get_callbacks stage) Ev.stage_start ⟨{ prepareState stage (exp.get_state_params stage) prev with stage := stage }, TimerManager.reset, clock, trace⟩).st.stage (fire cfg (exp.get_callbacks stage) Ev.stage_start ⟨{ prepareState stage (exp.get_state_params stage) prev with stage := stage }, TimerManager.reset, clock, trace⟩).st.valid_loader ((exp.get_loaders stage).map Prod.fst) = false := by
    rw [hsg, hvl]
    exact hfail
  have hstep := runStageEpochs_fail cfg (exp.get_callbacks stage) (exp.get_loaders stage) k
    (fire cfg (exp.get_callbacks stage) Ev.stage_start ⟨{ prepareState stage (exp.get_state_params stage) prev with stage := stage }, TimerManager.reset, clock, trace⟩)
    hfailB (hc Ev.epoch_start)
  simp only [runStage, hn, hk, hstep]
  simp [fire]

/-- Witness for the amended C5: the concrete misconfigured one-epoch
experiment fails with the precondition error, its trace holding exactly
stage_start then epoch_start. -/
theorem invalid_loaders_fail_first_epoch_witness :
    runStage cfgW expM none 0 [] "stageA"
      = .error (.precondition, [Ev.stage_start, Ev.epoch_start]) := by
  have h := invalid_loaders_fail_first_epoch cfgW expM "stageA" none 0 []
    (by decide) (fun e s => ⟨rfl, rfl, rfl, rfl⟩) (by decide)
  simpa using h

theorem runStageEpochs_early_stop {β : Type} (cfg : RunCfg β) (cbs : List (Callback β))
    (loaders : List (String × Loader β)) (k : Nat) (b : RB β)
    (hchk : cfg.checkRun = false)
    (hc : ∀ e, PreservesCfg (runEvent cfg.pre cfg.post cbs e))
    (he : ∀ e, e ≠ Ev.epoch_end → PreservesES (runEvent cfg.pre cfg.post cbs e))
    (hset : ∀ s : RState β, s.epoch = 0 → s.early_stop = false →
      (runEvent cfg.pre cfg.post cbs Ev.epoch_end s).early_stop = true)
    (hes : b.st.early_stop = false)
    (hcheck : epochCheckB b.st.stage b.st.valid_loader (loaders.map Prod.fst) = true) :
    ∃ b', runStageEpochs cfg cbs loaders 0 (k + 1) b = .ok b' ∧
      b'.trace = b.trace ++ [Ev.epoch_start] ++ loaderTraceOf loaders ++ [Ev.epoch_end] ∧
      b'.st.early_stop = false := by
  have hep2 : (fire cfg cbs Ev.epoch_start { b with st := { b.st with epoch := 0 } }).st.epoch
      = 0 := ((hc Ev.epoch_start { b.st with epoch := 0 }).2.2.2).trans rfl
  have hsg2 : (fire cfg cbs Ev.epoch_start { b with st := { b.st with epoch := 0 } }).st.stage
      = b.st.stage := ((hc Ev.epoch_start { b.st with epoch := 0 }).1).trans rfl
  have hvl2 : (fire cfg cbs Ev.epoch_start { b with st := { b.st with epoch := 0 } }).st.valid_loader
      = b.st.valid_loader := ((hc Ev.epoch_start { b.st with epoch := 0 }).2.1).trans rfl
  have hes2 : (fire cfg cbs Ev.epoch_start { b with st := { b.st with epoch := 0 } }).st.early_stop
      = false := by
    have h := he Ev.epoch_start (by simp) { b.st with epoch := 0 }
    rw [show ({ b.st with epoch := 0 } : RState β).early_stop = b.st.early_stop from rfl, hes] at h
    exact h
  obtain ⟨b3, hE, htrE, hcfgE, hesE⟩ := runEpoch_ok cfg cbs hchk hc
    (he Ev.loader_start (by simp)) (he Ev.loader_end (by simp))
    (he Ev.batch_start (by simp)) (he Ev.batch_end (by simp)) loaders
    (fire cfg cbs Ev.epoch_start { b with st := { b.st with epoch := 0 } })
    (by rw [hsg2, hvl2]; exact hcheck)
  have hep3 : b3.st.epoch = 0 := hcfgE.2.2.2.trans hep2
  have hes3 : b3.st.early_stop = false := hesE.trans hes2
  have hes4 : (fire cfg cbs Ev.epoch_end b3).st.early_stop = true :=
    hset b3.st hep3 hes3
  have hcond : ¬ (cfg.checkRun = true ∧ 3 ≤ 0) := by
    intro hcc
    rw [hchk] at hcc
    cases hcc.1
  refine ⟨{ fire cfg cbs Ev.epoch_end b3 with st := { (fire cfg cbs Ev.epoch_end b3).st with early_stop := false } }, ?_, ?_, rfl⟩
  · simp only [runStageEpochs, hE, if_neg hcond, hes4, if_true]
  · have h1 : ({ fire cfg cbs Ev.epoch_end b3 with st := { (fire cfg cbs Ev.epoch_end b3).st with early_stop := false } } : RB β).trace = b3.trace ++ [Ev.epoch_end] := rfl
    rw [h1, htrE]
    rfl

/-- C8: with the check flag unset, when the state hooks and observers
respect the configuration part of the observer contract, no handler other
than the epoch_end one touches early_stop, and the epoch_end dispatch sets
early_stop during epoch 0, a stage budgeted for 5 epochs runs exactly one
epoch (no second epoch_start fires before stage_end) and the early_stop
flag is false after the epoch loop exits. -/
theorem early_stop_one_epoch {β : Type} (cfg : RunCfg β) (exp : Experiment β)
    (stage : String) (prev : Option (RState β)) (clock : Nat) (trace : List Ev)
    (hchk : cfg.checkRun = false)
    (hc : ∀ e, PreservesCfg (runEvent cfg.pre cfg.post (exp.get_callbacks stage) e))
    (he : ∀ e, e ≠ Ev.epoch_end →
      PreservesES (runEvent cfg.pre cfg.post (exp.get_callbacks stage) e))
    (hset : ∀ s : RState β, s.epoch = 0 → s.early_stop = false →
      (runEvent cfg.pre cfg.post (exp.get_callbacks stage) Ev.epoch_end s).early_stop = true)
    (hn : (exp.get_state_params stage).n_epochs = 5)
    (hcheck : epochCheckB stage (exp.get_state_params stage).valid_loader
      ((exp.get_loaders stage).map Prod.fst) = true) :
    ∃ b', runStage cfg exp prev clock trace stage = .ok b' ∧
      b'.trace = trace ++ [Ev.stage_start, Ev.epoch_start]
        ++ loaderTraceOf (exp.get_loaders stage) ++ [Ev.epoch_end, Ev.stage_end] ∧
      b'.st.early_stop = false := by
  have hn5 : (fire cfg (exp.get_callbacks stage) Ev.stage_start ⟨{ prepareState stage (exp.get_state_params stage) prev with stage := stage }, TimerManager.reset, clock, trace⟩).st.n_epochs = 4 + 1 := by
    have ha : (fire cfg (exp.get_callbacks stage) Ev.stage_start ⟨{ prepareState stage (exp.get_state_params stage) prev with stage := stage }, TimerManager.reset, clock, trace⟩).st.n_epochs = (exp.get_state_params stage).n_epochs :=
      ((hc Ev.stage_start { prepareState stage (exp.get_state_params stage) prev with stage := stage }).2.2.1).trans rfl
    rw [ha, hn]
  have hsg : (fire cfg (exp.get_callbacks stage) Ev.stage_start ⟨{ prepareState stage (exp.get_state_params stage) prev with stage := stage }, TimerManager.reset, clock, trace⟩).st.stage = stage :=
    ((hc Ev.stage_start { prepareState stage (exp.get_state_params stage) prev with stage := stage }).1).trans rfl
  have hvl : (fire cfg (exp.get_callbacks stage) Ev.stage_start ⟨{ prepareState stage (exp.get_state_params stage) prev with stage := stage }, TimerManager.reset, clock, trace⟩).st.valid_loader = (exp.get_state_params stage).valid_loader :=
    ((hc Ev.stage_start { prepareState stage (exp.get_state_params stage) prev with stage := stage }).2.1).trans rfl
  have hesB : (fire cfg (exp.get_callbacks stage) Ev.stage_start ⟨{ prepareState stage (exp.get_state_params stage) prev with stage := stage }, TimerManager.reset, clock, trace⟩).st.early_stop = false :=
    (he Ev.stage_start (by simp) { prepareState stage (exp.get_state_params stage) prev with stage := stage }).trans rfl
  obtain ⟨b2, hEp, htrE, hesE⟩ := runStageEpochs_early_stop cfg (exp.get_callbacks stage)
    (exp.get_loaders stage) 4
    (fire cfg (exp.get_callbacks stage) Ev.stage_start ⟨{ prepareState stage (exp.get_state_params stage) prev with stage := stage }, TimerManager.reset, clock, trace⟩)
    hchk hc he hset hesB (by rw [hsg, hvl]; exact hcheck)
  refine ⟨fire cfg (exp.get_callbacks stage) Ev.stage_end b2, ?_, ?_, ?_⟩
  · simp only [runStage, hn5, hEp]
  · have h1 : (fire cfg (exp.get_callbacks stage) Ev.stage_end b2).trace
        = b2.trace ++ [Ev.stage_end] := rfl
    rw [h1, htrE]
    have h2 : (fire cfg (exp.get_callbacks stage) Ev.stage_start ⟨{ prepareState stage (exp.get_state_params stage) prev with stage := stage }, TimerManager.reset, clock, trace⟩).trace = trace ++ [Ev.stage_start] := rfl
    rw [h2]
    simp
  · exact (he Ev.stage_end (by simp) b2.st).trans hesE

/-- Witness for C8: the concrete 5-epoch experiment whose only observer
sets early_stop during epoch_end of epoch 0 runs exactly one epoch and
ends with the flag cleared. -/
theorem early_stop_one_epoch_witness :
    ∃ b', runStage cfgW expES none 0 [] "stageA" = .ok b' ∧
      b'.trace = [Ev.stage_start, Ev.epoch_start]
        ++ loaderTraceOf (expES.get_loaders "stageA") ++ [Ev.epoch_end, Ev.stage_end] ∧
      b'.st.early_stop = false := by
  obtain ⟨b', h1, h2, h3⟩ := early_stop_one_epoch cfgW expES "stageA" none 0 [] rfl
    (by
      intro e s
      cases e <;> simp [runEvent, applyOpt, esCb, expW, expES, cfgW] <;>
        by_cases h : s.epoch = 0 <;> simp [h])
    (by
      intro e hne s
      cases e <;> first
        | rfl
        | exact absurd rfl hne)
    (by
      intro s h0 hesf
      simp [runEvent, applyOpt, esCb, expES, cfgW, h0])
    rfl (by decide)
  exact ⟨b', h1, by simpa using h2, h3⟩

/-- C4: when a stage starts with a prior RunState present, the fresh state
carries step equal to the prior step and epoch equal to the prior epoch
plus one; with no prior state the epoch starts at 0 and the step is unset;
and a run of run_experiment enters its stage loop with no prior state, so
the epoch index resets to 0 only on migration from a non-existent prior
state. -/
theorem prepare_state_migration {β : Type} (stage : String) (params : StateParams)
    (p : RState β) (cfg : RunCfg β) (exp : Experiment β) :
    (prepareState stage params (some p) : RState β).epoch = p.epoch + 1 ∧
    (prepareState stage params (some p) : RState β).step = p.step ∧
    (prepareState stage params (none : Option (RState β))).epoch = 0 ∧
    (prepareState stage params (none : Option (RState β))).step = 0 ∧
    runExperiment cfg exp = runStages cfg exp exp.stages (none, 0, []) :=
  ⟨rfl, rfl, rfl, rfl, rfl⟩

/-- C7: every operation of the runner that writes the step counter leaves
it greater than or equal to its prior value: the per-batch advance adds
the batch size, the per-loader baseline keeps a non-zero step and
otherwise initialises it to epoch * loader_length * batch_size, and the
cross-stage migration copies the step unchanged. -/
theorem step_monotone {β : Type} (cfg : RunCfg β) (b : RB β) (batch : β)
    (step epoch loaderLen batchSize : Nat) (stage : String) (params : StateParams)
    (p : RState β) :
    (runBatch cfg b batch).st.step = b.st.step + b.st.batch_size ∧
    b.st.step ≤ (runBatch cfg b batch).st.step ∧
    step ≤ stepBaseline step epoch loaderLen batchSize ∧
    (prepareState stage params (some p) : RState β).step = p.step ∧
    p.step ≤ (prepareState stage params (some p) : RState β).step := by
  refine ⟨rfl, ?_, ?_, rfl, le_refl _⟩
  · exact Nat.le_add_right _ _
  · unfold stepBaseline
    by_cases h : step = 0
    · rw [if_pos h, h]
      exact Nat.zero_le _
    · rw [if_neg h]

theorem runEvent_foldl_logger {β : Type} (e : Ev) (l : List Nat) (s : RState β) :
    List.foldl (fun st c => applyOpt (c.handler e) st) s (l.map loggerCb)
      = { s with obs_log := s.obs_log ++ l } := by
  induction l generalizing s with
  | nil => simp
  | cons i rest ih =>
    simp only [List.map_cons, List.foldl_cons]
    rw [show applyOpt ((loggerCb i : Callback β).handler e) s
        = { s with obs_log := s.obs_log ++ [i] } from rfl]
    rw [ih]
    simp

theorem foldl_noop {β : Type} (e : Ev) (cbs : List (Callback β))
    (h : ∀ c ∈ cbs, c.handler e = none) :
    ∀ s : RState β, List.foldl (fun st c => applyOpt (c.handler e) st) s cbs = s := by
  induction cbs with
  | nil =>
    intro s
    rfl
  | cons c rest ih =>
    intro s
    simp only [List.foldl_cons]
    rw [h c (by simp)]
    exact ih (fun c' hc' => h c' (by simp [hc'])) s

/-- C9: for every fired event the dispatcher invokes the state's pre hook
before any observer, then every observer's handler in list order passing
the state, then the state's post hook; and a missing pre or post hook on
the state, or a missing handler on an observer, is a silent no-op, never
an error. -/
theorem run_event_order {β : Type} (e : Ev) (s : RState β) (n : Nat) :
    (runEvent (loggerHook 100) (loggerHook 101) ((List.range n).map loggerCb) e s).obs_log
      = s.obs_log ++ [100] ++ List.range n ++ [101] ∧
    (∀ cbs : List (Callback β), (∀ c ∈ cbs, c.handler e = none) →
      runEvent (fun _ => none) (fun _ => none) cbs e s = s) := by
  constructor
  · unfold runEvent
    rw [show applyOpt ((loggerHook 100 : Ev → Option (RState β → RState β)) e) s
        = { s with obs_log := s.obs_log ++ [100] } from rfl]
    rw [runEvent_foldl_logger]
    rfl
  · intro cbs hnone
    unfold runEvent
    rw [show applyOpt ((fun _ => (none : Option (RState β → RState β))) e) s = s from rfl]
    rw [foldl_noop e cbs hnone s]
    rfl

/-- Witness for C9: with two logging observers and logging hooks the
observer log records pre hook, observer 0, observer 1, post hook in order,
and an observer overriding no handler leaves the state untouched. -/
theorem run_event_order_witness :
    (runEvent (loggerHook 100) (loggerHook 101) ((List.range 2).map loggerCb)
      Ev.epoch_start sW).obs_log = [100, 0, 1, 101] ∧
    runEvent (fun _ => none) (fun _ => none) [noopCb] Ev.epoch_start sW = sW := by
  obtain ⟨h1, h2⟩ := run_event_order Ev.epoch_start sW 2
  constructor
  · rw [h1]
    rfl
  · exact h2 [noopCb] (by
      intro c hc
      simp only [List.mem_singleton] at hc
      rw [hc]
      rfl)
